import Mathlib

/-!
Verification of the dual-stream orchestration pipeline of the `DeepClaude`
class (`src/app/deepclaude/deepclaude.py`).

The two provider clients (`DeepSeekClient.chat`, `ClaudeClient.chat`) are
external collaborators that are not part of the verified core: each one is
modelled as the (arbitrary) sequence of `(kind, text)` events it yields,
plus a flag saying whether the stream raises after delivering those events.
Everything else is translated directly from `deepclaude.py`:

* the message splice performed in `process_claude` (streaming) and in
  `chat_completions_without_stream` (non-streaming), including the shallow
  `list.copy()` whose element dictionaries stay shared with the caller;
* the full non-streaming pipeline as a pure function;
* the streaming coordinator (`chat_completions_with_stream` with its two
  `asyncio.create_task` producers, the `claude_queue` handoff, the
  `output_queue`, and the consumer loop counting the two `None` sentinels)
  as a small-step state machine quantified over all interleavings.
-/

namespace DeepClaude

/-- One chat message dictionary `{"role": ..., "content": ...}`. -/
structure Message where
  role : String
  content : String
deriving DecidableEq

/-- One event yielded by `self.deepseek_client.chat(...)`: a
`("reasoning", text)` or `("content", text)` pair. -/
inductive DSEvent
  | reasoning (s : String)
  | content (s : String)
deriving DecidableEq

/-- One event yielded by `self.claude_client.chat(...)`: an
`("answer", text)` pair, or an event of any other kind (which the loops in
`deepclaude.py` silently skip, checking only `content_type == "answer"`). -/
inductive CEvent
  | answer (s : String)
  | other (s : String)
deriving DecidableEq

/-- The fixed fallback reasoning text (`"获取推理内容失败"`) substituted in
`process_claude` when the handed-over reasoning is falsy. -/
def reasoningFailedText : String := "获取推理内容失败"

/-- The `combined_content` f-string of `process_claude` (streaming path),
with its literal indentation (16 spaces). -/
def combinedContentStream (reasoning : String) : String :=
  "\n                Here's my another model's reasoning process:\n" ++ reasoning ++
    "\n\n\n                Based on this reasoning, provide your response directly to me:"

/-- The `combined_content` f-string of `chat_completions_without_stream`,
with its literal indentation (12 spaces). -/
def combinedContentNoStream (reasoning : String) : String :=
  "\n            Here's my another model's reasoning process:\n" ++ reasoning ++
    "\n\n\n            Based on this reasoning, provide your response directly to me:"

/-- The rewrite `fixed_content = f"Here's my original input:\n{original_content}\n\n{combined_content}"`. -/
def fixedContent (original combined : String) : String :=
  "Here's my original input:\n" ++ original ++ "\n\n" ++ combined

/-- The `system_content` accumulator: for every message whose role is
`"system"`, its content followed by `"\n"` is appended. -/
def systemText : List Message → String
  | [] => ""
  | m :: rest => (if m.role = "system" then m.content ++ "\n" else "") ++ systemText rest

/-- The `non_system_messages` list: all messages whose role is not `"system"`,
in order. -/
def nonSystem (msgs : List Message) : List Message :=
  msgs.filter (fun m => m.role ≠ "system")

/-- The expression `system_content.strip() if system_content else None` —
the system prompt actually passed to the answering client. -/
def normalizeSystem (s : String) : Option String :=
  if s = "" then none else some s.trim

/-- Replace the content of the last message of a list (the write
`last_message["content"] = fixed_content` as seen through `claude_messages`). -/
def setLastContent : List Message → String → List Message
  | [], _ => []
  | [m], s => [{ m with content := s }]
  | m :: m' :: rest, s => m :: setLastContent (m' :: rest) s

/-- Helper for `mutateLastNonSystem`: replace the content of the first
non-system message of a (reversed) list. -/
def replaceFirstNonSystemRev : List Message → String → List Message
  | [], _ => []
  | m :: rest, s =>
    if m.role ≠ "system" then { m with content := s } :: rest
    else m :: replaceFirstNonSystemRev rest s

/-- Effect of the splice on the caller's own list: `messages.copy()` is a
shallow copy, so writing `last_message["content"]` mutates the dictionary
that the caller's list still holds — the last non-system message of the
original list changes content. -/
def mutateLastNonSystem (msgs : List Message) (s : String) : List Message :=
  (replaceFirstNonSystemRev msgs.reverse s).reverse

/-- Errors arising around the splice step. `emptyMessageList` and
`lastMessageNotUser` are the two `ValueError`s of `process_claude`;
`indexOutOfRange` is the `IndexError` that `claude_messages[-1]` raises in
`chat_completions_without_stream` when the filtered list is empty. -/
inductive SpliceError
  | emptyMessageList
  | lastMessageNotUser
  | indexOutOfRange
deriving DecidableEq

/-- Result of a successful splice: the message list sent to the answering
model, the raw accumulated system text, and the caller-visible message list
after the in-place mutation. -/
structure SpliceOk where
  claudeMessages : List Message
  systemRaw : String
  callerMessages : List Message
deriving DecidableEq

/-- The splice of `process_claude` (streaming): filter system messages,
fail on an empty remainder, fail when the last message is not from the
user, otherwise rewrite the last message in place. -/
def spliceStream (messages : List Message) (reasoning : String) :
    Except SpliceError SpliceOk :=
  let combined := combinedContentStream reasoning
  let nonSys := nonSystem messages
  match nonSys.getLast? with
  | none => .error .emptyMessageList
  | some last =>
    if last.role ≠ "user" then .error .lastMessageNotUser
    else
      let fixed := fixedContent last.content combined
      .ok { claudeMessages := setLastContent nonSys fixed
            systemRaw := systemText messages
            callerMessages := mutateLastNonSystem messages fixed }

/-- The splice of `chat_completions_without_stream`: `claude_messages[-1]`
raises `IndexError` on an empty list, and a non-user last message is *not*
an error — the reasoning is simply not spliced in. -/
def spliceNoStream (messages : List Message) (reasoning : String) :
    Except SpliceError SpliceOk :=
  let combined := combinedContentNoStream reasoning
  let nonSys := nonSystem messages
  match nonSys.getLast? with
  | none => .error .indexOutOfRange
  | some last =>
    if last.role = "user" then
      let fixed := fixedContent last.content combined
      .ok { claudeMessages := setLastContent nonSys fixed
            systemRaw := systemText messages
            callerMessages := mutateLastNonSystem messages fixed }
    else
      .ok { claudeMessages := nonSys
            systemRaw := systemText messages
            callerMessages := messages }

/-- The reasoning fragments collected by the `async for` loop over the
DeepSeek stream: every `("reasoning", s)` before the first `("content", _)`
event (which triggers `break`). -/
def collectReasoning : List DSEvent → List String
  | [] => []
  | .content _ :: _ => []
  | .reasoning s :: rest => s :: collectReasoning rest

/-- Whether a `("content", _)` event occurs in the stream. -/
def hasContentEvent : List DSEvent → Bool
  | [] => false
  | .content _ :: _ => true
  | .reasoning _ :: rest => hasContentEvent rest

/-- The DeepSeek phase of `chat_completions_without_stream`: iterate the
stream, collecting reasoning fragments, `break` at the first content event.
A provider exception (modelled as `raises` firing once the delivered events
are exhausted) is only reached when no content event caused a `break`;
it is re-raised. -/
def dsReasoningParts : List DSEvent → Bool → Except Unit (List String)
  | [], raises => if raises then .error () else .ok []
  | .content _ :: _, _ => .ok []
  | .reasoning s :: rest, raises => (dsReasoningParts rest raises).map (s :: ·)

/-- The answer fragments of the Claude stream: contents of `("answer", s)`
events, in order; other event kinds are skipped. -/
def answersOf : List CEvent → List String
  | [] => []
  | .answer s :: rest => s :: answersOf rest
  | .other _ :: rest => answersOf rest

/-- The Claude phase of `chat_completions_without_stream`: the loop has no
`break`, so a provider exception (after the delivered events) always fires
when `raises` is set, and is re-raised. -/
def clAnswerParts : List CEvent → Bool → Except Unit (List String)
  | [], raises => if raises then .error () else .ok []
  | .answer s :: rest, raises => (clAnswerParts rest raises).map (s :: ·)
  | .other _ :: rest, raises => clAnswerParts rest raises

/-- The `usage` object of the non-streaming response. -/
structure UsageInfo where
  prompt_tokens : Nat
  completion_tokens : Nat
  total_tokens : Nat
deriving DecidableEq

/-- The `message` object inside the non-streaming response choice. -/
structure RespMessage where
  role : String
  content : String
  reasoning_content : String
deriving DecidableEq

/-- One element of `choices` in the non-streaming response. -/
structure RespChoice where
  index : Nat
  message : RespMessage
  finish_reason : String
deriving DecidableEq

/-- The complete OpenAI-shaped non-streaming response dictionary. -/
structure ChatResponse where
  id : String
  object : String
  created : Nat
  model : String
  choices : List RespChoice
  usage : UsageInfo
deriving DecidableEq

/-- Errors that `chat_completions_without_stream` lets escape: the re-raised
DeepSeek provider error, the `IndexError` of the splice on an empty list,
and the re-raised Claude provider error. -/
inductive NSError
  | reasoningLegError
  | emptyListIndexError
  | answerLegError
deriving DecidableEq

/-- Request-scoped inputs that `chat_completions_without_stream` obtains
from its environment: the `tiktoken` encoder for `"gpt-4o"` (abstract),
the generated `chat_id`, the `created` timestamp, and the resolved answer
model identifier. -/
structure NSParams where
  enc : String → List Nat
  chatId : String
  createdTime : Nat
  claudeModelId : String

/-- Result of the non-streaming call: the returned response (or the escaped
exception), paired with the caller-visible message list after the call. -/
structure NSOutcome where
  result : Except NSError ChatResponse
  finalMessages : List Message

/-- The method `chat_completions_without_stream`, as a pure function of
the two provider streams. Mirrors the source step by step: DeepSeek phase (with
the dead `reasoning_content = ["获取推理内容失败"]` store before the
re-raise dropped, since the exception escapes), splice, token count of the
newline-joined non-system contents, Claude phase, response assembly with
`len(input_tokens + output_tokens)` as `total_tokens`. -/
def chatCompletionsWithoutStream (P : NSParams) (messages : List Message)
    (dsEvents : List DSEvent) (dsRaises : Bool)
    (clEvents : List CEvent) (clRaises : Bool) : NSOutcome :=
  match dsReasoningParts dsEvents dsRaises with
  | .error _ => ⟨.error .reasoningLegError, messages⟩
  | .ok parts =>
    let reasoning := String.join parts
    match spliceNoStream messages reasoning with
    | .error _ => ⟨.error .emptyListIndexError, messages⟩
    | .ok sp =>
      let tokenContent := String.intercalate "\n" (sp.claudeMessages.map (·.content))
      let inputTokens := P.enc tokenContent
      match clAnswerParts clEvents clRaises with
      | .error _ => ⟨.error .answerLegError, sp.callerMessages⟩
      | .ok answers =>
        let answer := String.join answers
        let outputTokens := if answers.isEmpty then [] else P.enc answer
        ⟨.ok { id := P.chatId
               object := "chat.completion"
               created := P.createdTime
               model := P.claudeModelId
               choices := [{ index := 0
                             message := { role := "assistant"
                                          content := answer
                                          reasoning_content := reasoning }
                             finish_reason := "stop" }]
               usage := { prompt_tokens := inputTokens.length
                          completion_tokens := outputTokens.length
                          total_tokens := (inputTokens ++ outputTokens).length } },
         sp.callerMessages⟩

/-! ## The streaming coordinator as a small-step machine

`chat_completions_with_stream` spawns `process_deepseek` and
`process_claude` with `asyncio.create_task` and then consumes
`output_queue` until it has seen two `None` sentinels.  The three
coroutines are modelled as three actors of a state machine; a schedule (an
arbitrary list of actor identifiers) decides which actor is stepped when,
a step of a blocked or finished actor being a no-op.  Each machine step
spans the code between two `await` suspension points of one coroutine. -/

/-- An element of `output_queue`: a reasoning chunk, an answer chunk, or
the `None` end-of-task sentinel. -/
inductive OutItem
  | rchunk (s : String)
  | achunk (s : String)
  | endMark
deriving DecidableEq

/-- Control state of the `process_deepseek` coroutine. `running acc rest`
is the `async for` loop with accumulator `acc` and undelivered events
`rest`; `finishing` is the point after the loop and before
`output_queue.put(None)`; `halted` is normal return; `failed` is the
re-raise path, which skips the `put(None)`. -/
inductive DSState
  | running (acc : List String) (rest : List DSEvent)
  | finishing
  | halted
  | failed
deriving DecidableEq

/-- Control state of the `process_claude` coroutine. `waiting` is the
blocking `claude_queue.get()`; `running rest` is the `async for` loop over
the Claude stream; `finishing` precedes `output_queue.put(None)`; `halted`
is normal return; `failed` is the re-raise path (splice `ValueError` or
provider error), which skips the `put(None)`. -/
inductive CLState
  | waiting
  | running (rest : List CEvent)
  | finishing
  | halted
  | failed
deriving DecidableEq

/-- The per-request inputs of the streaming call: the caller's message
list and the two provider streams (delivered events plus a flag for a
provider exception fired after them). -/
structure StreamInput where
  messages : List Message
  dsEvents : List DSEvent
  dsRaises : Bool
  clEvents : List CEvent
  clRaises : Bool
deriving DecidableEq

/-- Global state of one streaming request. `popped` records every item the
consumer has taken off `output_queue` (in order); `emitted` is its
restriction to chunks, i.e. the chunk sequence actually yielded to the
caller; `doneEmitted` says whether the final `b"data: [DONE]"` line has
been yielded; `callerMsgs` is the caller-visible message list (mutated in
place by the splice); `used` is the reasoning text `process_claude`
proceeded with after the placeholder substitution, once it has one. -/
structure Sys where
  ds : DSState
  cl : CLState
  claudeQ : List String
  outQ : List OutItem
  popped : List OutItem
  finished : Nat
  emitted : List OutItem
  doneEmitted : Bool
  callerMsgs : List Message
  used : Option String
deriving DecidableEq

/-- Initial state: both tasks just created, queues empty, nothing yielded. -/
def initSys (I : StreamInput) : Sys :=
  { ds := .running [] I.dsEvents
    cl := .waiting
    claudeQ := []
    outQ := []
    popped := []
    finished := 0
    emitted := []
    doneEmitted := false
    callerMsgs := I.messages
    used := none }

/-- One step of `process_deepseek`: forward a reasoning chunk, or on a
content event publish the accumulated text to `claude_queue` and `break`,
or at stream end either re-raise (after `claude_queue.put("")`) or fall
through; finally `output_queue.put(None)`. -/
def dsStep (I : StreamInput) (s : Sys) : Sys :=
  match s.ds with
  | .running acc rest =>
    match rest with
    | .reasoning c :: rest' =>
      { s with ds := .running (acc ++ [c]) rest'
               outQ := s.outQ ++ [.rchunk c] }
    | .content _ :: _ =>
      { s with ds := .finishing
               claudeQ := s.claudeQ ++ [String.join acc] }
    | [] =>
      if I.dsRaises then
        { s with ds := .failed, claudeQ := s.claudeQ ++ [""] }
      else
        { s with ds := .finishing }
  | .finishing => { s with ds := .halted, outQ := s.outQ ++ [.endMark] }
  | _ => s

/-- One step of `process_claude`: take the handoff (blocking while
`claude_queue` is empty), substitute the placeholder for a falsy value,
splice (re-raising a `ValueError` moves to `failed`), then forward answer
chunks; at stream end either re-raise or `output_queue.put(None)`. -/
def clStep (I : StreamInput) (s : Sys) : Sys :=
  match s.cl with
  | .waiting =>
    match s.claudeQ with
    | [] => s
    | r :: rq =>
      let reasoning := if r = "" then reasoningFailedText else r
      match spliceStream I.messages reasoning with
      | .error _ => { s with cl := .failed, claudeQ := rq, used := some reasoning }
      | .ok sp => { s with cl := .running I.clEvents
                           claudeQ := rq
                           used := some reasoning
                           callerMsgs := sp.callerMessages }
  | .running rest =>
    match rest with
    | .answer c :: rest' =>
      { s with cl := .running rest', outQ := s.outQ ++ [.achunk c] }
    | .other _ :: rest' => { s with cl := .running rest' }
    | [] =>
      if I.clRaises then { s with cl := .failed }
      else { s with cl := .finishing }
  | .finishing => { s with cl := .halted, outQ := s.outQ ++ [.endMark] }
  | _ => s

/-- One step of the consumer loop `while finished_tasks < 2`: take the
next item off `output_queue`; a `None` sentinel bumps the counter (and on
the second one the loop exits and yields `b"data: [DONE]"`), any other
item is yielded. After the `[DONE]` line the generator is exhausted. -/
def outStep (s : Sys) : Sys :=
  if s.doneEmitted then s
  else
    match s.outQ with
    | [] => s
    | item :: rest =>
      match item with
      | .endMark =>
        if s.finished + 1 = 2 then
          { s with outQ := rest, popped := s.popped ++ [item]
                   finished := s.finished + 1, doneEmitted := true }
        else
          { s with outQ := rest, popped := s.popped ++ [item]
                   finished := s.finished + 1 }
      | _ =>
        { s with outQ := rest, popped := s.popped ++ [item]
                 emitted := s.emitted ++ [item] }

/-- Actor identifiers: the two producer tasks and the consumer loop. -/
inductive Tid
  | dsT
  | clT
  | outT
deriving DecidableEq

/-- Dispatch one scheduled step. -/
def step (I : StreamInput) (s : Sys) : Tid → Sys
  | .dsT => dsStep I s
  | .clT => clStep I s
  | .outT => outStep s

/-- Run the machine from the initial state under a schedule. -/
def run (I : StreamInput) (sched : List Tid) : Sys :=
  sched.foldl (step I) (initSys I)

/-! ## Trace predicates and the master invariant -/

/-- Is the item a reasoning chunk? -/
def itemIsR : OutItem → Bool
  | .rchunk _ => true
  | _ => false

/-- Is the item an answer chunk? -/
def itemIsA : OutItem → Bool
  | .achunk _ => true
  | _ => false

/-- Is the item a chunk (not the `None` sentinel)? -/
def itemIsChunk : OutItem → Bool
  | .endMark => false
  | _ => true

/-- No reasoning chunk occurs after an answer chunk. -/
def noRafterA : List OutItem → Bool
  | [] => true
  | i :: rest => if itemIsA i then rest.all (fun j => !itemIsR j) else noRafterA rest

/-- Number of `None` sentinels in a queue excerpt. -/
def endCount (l : List OutItem) : Nat := l.countP (fun i => i == OutItem.endMark)

/-- The full put-history of `output_queue`: consumed prefix plus current
content. -/
def trace (s : Sys) : List OutItem := s.popped ++ s.outQ

/-- The value `process_deepseek` eventually writes to `claude_queue`, as a
function of the provider stream: the accumulated reasoning on a content
event, `""` on a provider exception, nothing if the stream just ends. -/
def handoffVal (I : StreamInput) : Option String :=
  if hasContentEvent I.dsEvents then some (String.join (collectReasoning I.dsEvents))
  else if I.dsRaises then some "" else none

/-- The reasoning fragments `process_deepseek` has accumulated by the time
it is in a given control state. -/
def dsAccOf (I : StreamInput) : DSState → List String
  | .running acc _ => acc
  | _ => collectReasoning I.dsEvents

/-- Contribution of a control state to the count of `None` sentinels put
by `process_deepseek`. -/
def dsH01 : DSState → Nat
  | .halted => 1
  | _ => 0

/-- Contribution of a control state to the count of `None` sentinels put
by `process_claude`. -/
def clH01 : CLState → Nat
  | .halted => 1
  | _ => 0

theorem all_notR_noRafterA : ∀ l : List OutItem,
    l.all (fun j => !itemIsR j) = true → noRafterA l = true := by
  intro l h
  induction l with
  | nil => rfl
  | cons i rest ih =>
    simp only [List.all_cons, Bool.and_eq_true] at h
    by_cases hA : itemIsA i = true
    · simp [noRafterA, hA, h.2]
    · simp only [noRafterA, hA, if_neg]
      simp only [Bool.not_eq_true] at hA
      simp [hA, ih h.2]

theorem noA_noRafterA : ∀ l : List OutItem,
    (∀ a ∈ l, itemIsA a = false) → noRafterA l = true := by
  intro l h
  induction l with
  | nil => rfl
  | cons i rest ih =>
    have hA : itemIsA i = false := h i (List.mem_cons_self i rest)
    simp only [noRafterA, hA, Bool.false_eq_true, if_neg]
    exact ih (fun a ha => h a (List.mem_cons_of_mem i ha))

theorem noRafterA_append_notR : ∀ l : List OutItem, ∀ x : OutItem,
    itemIsR x = false → noRafterA l = true → noRafterA (l ++ [x]) = true := by
  intro l x hx h
  induction l with
  | nil =>
    by_cases hA : itemIsA x = true
    · simp [noRafterA, hA]
    · simp only [Bool.not_eq_true] at hA
      simp [noRafterA, hA]
  | cons i rest ih =>
    by_cases hA : itemIsA i = true
    · simp only [noRafterA, hA, if_pos] at h ⊢
      simp [List.all_append, h, hx]
    · simp only [Bool.not_eq_true] at hA
      simp only [noRafterA, hA] at h ⊢
      simp only [Bool.false_eq_true, if_neg, List.cons_append] at h ⊢
      exact ih h

theorem all_of_sublist {p : OutItem → Bool} {l1 l2 : List OutItem}
    (hs : List.Sublist l1 l2) (h : l2.all p = true) : l1.all p = true := by
  induction hs with
  | slnil => rfl
  | cons a _ ih =>
    simp only [List.all_cons, Bool.and_eq_true] at h
    exact ih h.2
  | cons₂ a hs ih =>
    simp only [List.all_cons, Bool.and_eq_true] at h ⊢
    exact ⟨h.1, ih h.2⟩

theorem noRafterA_sublist : ∀ l1 l2 : List OutItem, List.Sublist l1 l2 →
    noRafterA l2 = true → noRafterA l1 = true := by
  intro l1 l2 hs
  induction hs with
  | slnil => intro _; rfl
  | @cons l1' l2' a hs ih =>
    intro h
    by_cases hA : itemIsA a = true
    · simp only [noRafterA, hA, if_pos] at h
      exact all_notR_noRafterA _ (all_of_sublist hs h)
    · simp only [Bool.not_eq_true] at hA
      simp only [noRafterA, hA, Bool.false_eq_true, if_neg] at h
      exact ih h
  | @cons₂ l1' l2' a hs ih =>
    intro h
    by_cases hA : itemIsA a = true
    · simp only [noRafterA, hA, if_pos] at h ⊢
      exact all_of_sublist hs h
    · simp only [Bool.not_eq_true] at hA
      simp only [noRafterA, hA, Bool.false_eq_true, if_neg] at h ⊢
      exact ih h

theorem answersOf_append : ∀ l1 l2 : List CEvent,
    answersOf (l1 ++ l2) = answersOf l1 ++ answersOf l2 := by
  intro l1 l2
  induction l1 with
  | nil => rfl
  | cons e rest ih =>
    cases e with
    | answer s => simp [answersOf, ih]
    | other s => simp [answersOf, ih]

/-- The per-`process_claude`-state characterization of the answer chunks
present in the put-history `fa`. -/
def clAOk (I : StreamInput) (cl : CLState) (fa : List OutItem) : Prop :=
  match cl with
  | .waiting => fa = []
  | .running rest => ∃ pre, I.clEvents = pre ++ rest ∧
      fa = (answersOf pre).map OutItem.achunk
  | .finishing => fa = (answersOf I.clEvents).map OutItem.achunk
  | .halted => fa = (answersOf I.clEvents).map OutItem.achunk
  | .failed => True

/-- The master invariant of the streaming coordinator, preserved by every
step of every actor. -/
structure MInv (I : StreamInput) (s : Sys) : Prop where
  order : noRafterA (trace s) = true
  dsRun : ∀ acc rest, s.ds = DSState.running acc rest →
    s.claudeQ = [] ∧ s.cl = CLState.waiting ∧ s.used = none ∧
    acc ++ collectReasoning rest = collectReasoning I.dsEvents ∧
    hasContentEvent rest = hasContentEvent I.dsEvents
  marks : endCount (trace s) = dsH01 s.ds + clH01 s.cl
  fin : s.finished = endCount s.popped
  doneFin : s.doneEmitted = true → s.finished = 2
  queue : s.claudeQ = [] ∨ ∃ h, s.claudeQ = [h] ∧ handoffVal I = some h
  usedInv : ∀ r, s.used = some r →
    ∃ h, handoffVal I = some h ∧ r = (if h = "" then reasoningFailedText else h)
  clNoFin : I.clRaises = true → s.cl ≠ CLState.finishing ∧ s.cl ≠ CLState.halted
  noHandoff : handoffVal I = none → s.claudeQ = [] ∧ s.cl = CLState.waiting
  lastEnd : endCount (trace s) = 2 → (trace s).getLast? = some OutItem.endMark
  rchunks : (trace s).filter itemIsR = (dsAccOf I s.ds).map OutItem.rchunk
  achunks : clAOk I s.cl ((trace s).filter itemIsA)
  emittedEq : s.emitted = s.popped.filter itemIsChunk

theorem MInv_init (I : StreamInput) : MInv I (initSys I) := by
  constructor <;> simp [initSys, trace, noRafterA, endCount, dsH01, clH01,
    dsAccOf, clAOk, handoffVal]

theorem endCount_append (a b : List OutItem) :
    endCount (a ++ b) = endCount a + endCount b :=
  List.countP_append _ _ _

theorem endCount_rchunk (c : String) : endCount [OutItem.rchunk c] = 0 := rfl

theorem endCount_achunk (c : String) : endCount [OutItem.achunk c] = 0 := rfl

theorem endCount_endMark : endCount [OutItem.endMark] = 1 := rfl

theorem filterA_nil_forall {l : List OutItem} (h : l.filter itemIsA = []) :
    ∀ a ∈ l, itemIsA a = false := by
  intro a ha
  by_contra hc
  simp only [Bool.not_eq_false] at hc
  have : a ∈ l.filter itemIsA := List.mem_filter.mpr ⟨ha, hc⟩
  simp [h] at this

theorem MInv_dsStep (I : StreamInput) (s : Sys) (hI : MInv I s) :
    MInv I (dsStep I s) := by
  obtain ⟨ho, hdr, hm, hf, hdf, hq, hu, hcf, hnh, hle, hrc, hac, hem⟩ := hI
  rcases hds : s.ds with ⟨acc, rest⟩ | _ | _ | _
  case running =>
    obtain ⟨hq0, hcl0, hu0, hacc, hhc⟩ := hdr acc rest hds
    have hnoA : ∀ a ∈ trace s, itemIsA a = false := by
      apply filterA_nil_forall
      rw [hcl0] at hac
      exact hac
    rcases rest with _ | ⟨ev, rest'⟩
    · -- stream exhausted
      by_cases hraise : I.dsRaises = true
      · -- provider exception: claude_queue.put(""), re-raise
        have hstep : dsStep I s = { s with ds := .failed, claudeQ := s.claudeQ ++ [""] } := by
          simp [dsStep, hds, hraise]
        rw [hstep]
        have hhv : handoffVal I = some "" := by
          simp only [handoffVal]
          rw [← hhc]
          simp [hasContentEvent, hraise]
        have hcr : collectReasoning I.dsEvents = acc := by
          rw [← hacc]; simp [collectReasoning]
        constructor
        · simpa [trace] using ho
        · intro a r h; simp at h
        · simpa [trace, dsH01, clH01, hds] using hm
        · exact hf
        · exact hdf
        · right; exact ⟨"", by simp [hq0], hhv⟩
        · simpa using hu
        · simpa using hcf
        · intro h; rw [hhv] at h; simp at h
        · simpa [trace] using hle
        · show List.filter itemIsR (trace s) = List.map OutItem.rchunk (dsAccOf I DSState.failed)
          rw [hrc, hds]
          simp [dsAccOf, hcr]
        · simpa [trace] using hac
        · exact hem
      · -- natural end without content event: fall through to put(None)
        have hstep : dsStep I s = { s with ds := .finishing } := by
          simp [dsStep, hds, hraise]
        rw [hstep]
        have hcr : collectReasoning I.dsEvents = acc := by
          rw [← hacc]; simp [collectReasoning]
        constructor
        · simpa [trace] using ho
        · intro a r h; simp at h
        · simpa [trace, dsH01, clH01, hds] using hm
        · exact hf
        · exact hdf
        · simpa using hq
        · simpa using hu
        · simpa using hcf
        · intro h; exact ⟨hq0, hcl0⟩
        · simpa [trace] using hle
        · show List.filter itemIsR (trace s)
              = List.map OutItem.rchunk (dsAccOf I DSState.finishing)
          rw [hrc, hds]
          simp [dsAccOf, hcr]
        · simpa [trace] using hac
        · exact hem
    · cases ev with
      | reasoning c =>
        -- forward one reasoning chunk
        have hstep : dsStep I s = { s with ds := .running (acc ++ [c]) rest', outQ := s.outQ ++ [.rchunk c] } := by
          simp [dsStep, hds]
        rw [hstep]
        have htr : trace { s with ds := DSState.running (acc ++ [c]) rest', outQ := s.outQ ++ [OutItem.rchunk c] } = trace s ++ [OutItem.rchunk c] := by
          simp [trace]
        constructor
        · rw [htr]
          apply noA_noRafterA
          intro a ha
          rcases List.mem_append.mp ha with h1 | h1
          · exact hnoA a h1
          · simp at h1; simp [h1, itemIsA]
        · intro acc0 rest0 h
          simp only [Sys.mk.injEq] at h
          have h' : DSState.running (acc ++ [c]) rest' = DSState.running acc0 rest0 := by
            exact h
          simp only [DSState.running.injEq] at h'
          refine ⟨hq0, hcl0, hu0, ?_, ?_⟩
          · rw [← h'.1, ← h'.2, ← hacc]
            simp [collectReasoning]
          · rw [← h'.2, ← hhc]
            rfl
        · rw [htr, endCount_append, endCount_rchunk]
          have hm' := hm
          rw [hds] at hm'
          simpa [dsH01, clH01] using hm'
        · exact hf
        · exact hdf
        · simpa using hq
        · simpa using hu
        · simpa using hcf
        · intro h; exact ⟨hq0, hcl0⟩
        · intro h
          exfalso
          rw [htr, endCount_append, endCount_rchunk] at h
          have hm' := hm
          rw [hds, hcl0] at hm'
          simp [dsH01, clH01] at hm'
          omega
        · rw [htr, List.filter_append]
          have hrc' := hrc
          rw [hds] at hrc'
          simp only [dsAccOf] at hrc'
          rw [hrc']
          simp [dsAccOf, itemIsR]
        · rw [htr, List.filter_append]
          show clAOk I s.cl _
          rw [hcl0] at hac ⊢
          simp only [clAOk] at hac ⊢
          simp [hac, itemIsA]
        · exact hem
      | content c =>
        -- content event: publish the accumulated reasoning, break
        have hstep : dsStep I s = { s with ds := .finishing, claudeQ := s.claudeQ ++ [String.join acc] } := by
          simp [dsStep, hds]
        rw [hstep]
        have hhc' : hasContentEvent I.dsEvents = true := by
          rw [← hhc]; rfl
        have hcr : collectReasoning I.dsEvents = acc := by
          rw [← hacc]; simp [collectReasoning]
        have hhv : handoffVal I = some (String.join acc) := by
          simp [handoffVal, hhc', hcr]
        constructor
        · simpa [trace] using ho
        · intro a r h; simp at h
        · simpa [trace, dsH01, clH01, hds] using hm
        · exact hf
        · exact hdf
        · right; exact ⟨String.join acc, by simp [hq0], hhv⟩
        · simpa using hu
        · simpa using hcf
        · intro h; rw [hhv] at h; simp at h
        · simpa [trace] using hle
        · show List.filter itemIsR (trace s)
              = List.map OutItem.rchunk (dsAccOf I DSState.finishing)
          rw [hrc, hds]
          simp [dsAccOf, hcr]
        · simpa [trace] using hac
        · exact hem
  case finishing =>
    -- output_queue.put(None)
    have hstep : dsStep I s = { s with ds := .halted, outQ := s.outQ ++ [.endMark] } := by
      simp [dsStep, hds]
    rw [hstep]
    have htr : trace { s with ds := DSState.halted, outQ := s.outQ ++ [OutItem.endMark] }
        = trace s ++ [OutItem.endMark] := by
      simp [trace]
    constructor
    · rw [htr]
      exact noRafterA_append_notR _ _ rfl ho
    · intro a r h; simp at h
    · rw [htr, endCount_append, endCount_endMark]
      have hm' := hm
      rw [hds] at hm'
      simp only [dsH01] at hm'
      simp only [dsH01]
      omega
    · exact hf
    · exact hdf
    · simpa using hq
    · simpa using hu
    · simpa using hcf
    · intro h
      exact hnh h
    · intro _
      rw [htr]
      exact List.getLast?_concat _
    · rw [htr, List.filter_append]
      have hrc' := hrc
      rw [hds] at hrc'
      simp only [dsAccOf] at hrc'
      rw [hrc']
      simp [dsAccOf, itemIsR]
    · rw [htr, List.filter_append]
      have : List.filter itemIsA [OutItem.endMark] = [] := rfl
      rw [this, List.append_nil]
      exact hac
    · exact hem
  case halted =>
    have hstep : dsStep I s = s := by simp [dsStep, hds]
    rw [hstep]
    exact ⟨ho, hdr, hm, hf, hdf, hq, hu, hcf, hnh, hle, hrc, hac, hem⟩
  case failed =>
    have hstep : dsStep I s = s := by simp [dsStep, hds]
    rw [hstep]
    exact ⟨ho, hdr, hm, hf, hdf, hq, hu, hcf, hnh, hle, hrc, hac, hem⟩

theorem dsH01_le_one (d : DSState) : dsH01 d ≤ 1 := by cases d <;> simp [dsH01]

theorem clH01_le_one (c : CLState) : clH01 c ≤ 1 := by cases c <;> simp [clH01]

theorem MInv_clStep (I : StreamInput) (s : Sys) (hI : MInv I s) :
    MInv I (clStep I s) := by
  obtain ⟨ho, hdr, hm, hf, hdf, hq, hu, hcf, hnh, hle, hrc, hac, hem⟩ := hI
  have hdsNotRun : s.claudeQ ≠ [] ∨ s.cl ≠ CLState.waiting →
      ∀ acc rest, s.ds ≠ DSState.running acc rest := by
    intro h acc rest hcontra
    obtain ⟨h1, h2, _, _, _⟩ := hdr acc rest hcontra
    rcases h with h | h
    · exact h h1
    · exact h h2
  rcases hds : s.cl with _ | rest | _ | _ | _
  case waiting =>
    rcases hcq : s.claudeQ with _ | ⟨r, rq⟩
    · have hstep : clStep I s = s := by simp [clStep, hds, hcq]
      rw [hstep]
      exact ⟨ho, hdr, hm, hf, hdf, hq, hu, hcf, hnh, hle, hrc, hac, hem⟩
    · -- take the handoff off claude_queue
      obtain ⟨h0, hq1, hq2⟩ : ∃ h0, s.claudeQ = [h0] ∧ handoffVal I = some h0 := by
        rcases hq with h | h
        · rw [hcq] at h; simp at h
        · exact h
      have hr0 : r = h0 ∧ rq = [] := by
        rw [hcq] at hq1
        simp only [List.cons.injEq] at hq1
        exact hq1
      have hnorun : ∀ acc rest, s.ds ≠ DSState.running acc rest := by
        apply hdsNotRun
        left
        rw [hcq]
        simp
      have hfa : List.filter itemIsA (trace s) = [] := by
        rw [hds] at hac
        exact hac
      rcases hsp : spliceStream I.messages (if r = "" then reasoningFailedText else r)
          with e | sp
      · have hstep : clStep I s = { s with cl := .failed, claudeQ := rq, used := some (if r = "" then reasoningFailedText else r) } := by
          simp [clStep, hds, hcq, hsp]
        rw [hstep]
        constructor
        · exact ho
        · intro acc rest h
          exact absurd h (hnorun acc rest)
        · show endCount (trace s) = dsH01 s.ds + clH01 CLState.failed
          rw [hds] at hm
          simpa [clH01] using hm
        · exact hf
        · exact hdf
        · left; exact hr0.2
        · intro r0 h
          simp only [Option.some.injEq] at h
          exact ⟨h0, hq2, by rw [← h, hr0.1]⟩
        · intro _; exact ⟨by simp, by simp⟩
        · intro h; rw [hq2] at h; simp at h
        · exact hle
        · exact hrc
        · show clAOk I CLState.failed _
          simp [clAOk]
        · exact hem
      · have hstep : clStep I s = { s with cl := .running I.clEvents, claudeQ := rq, used := some (if r = "" then reasoningFailedText else r), callerMsgs := sp.callerMessages } := by
          simp [clStep, hds, hcq, hsp]
        rw [hstep]
        constructor
        · exact ho
        · intro acc rest h
          exact absurd h (hnorun acc rest)
        · show endCount (trace s) = dsH01 s.ds + clH01 (CLState.running I.clEvents)
          rw [hds] at hm
          simpa [clH01] using hm
        · exact hf
        · exact hdf
        · left; exact hr0.2
        · intro r0 h
          simp only [Option.some.injEq] at h
          exact ⟨h0, hq2, by rw [← h, hr0.1]⟩
        · intro _; exact ⟨by simp, by simp⟩
        · intro h; rw [hq2] at h; simp at h
        · exact hle
        · exact hrc
        · show clAOk I (CLState.running I.clEvents) (List.filter itemIsA (trace s))
          exact ⟨[], by simp, by simp [hfa, answersOf]⟩
        · exact hem
  case running =>
    have hnotwait : s.cl ≠ CLState.waiting := by rw [hds]; simp
    have hnorun : ∀ acc rest0, s.ds ≠ DSState.running acc rest0 :=
      hdsNotRun (Or.inr hnotwait)
    rcases rest with _ | ⟨ev, rest2⟩
    · by_cases hraise : I.clRaises = true
      · have hstep : clStep I s = { s with cl := .failed } := by
          simp [clStep, hds, hraise]
        rw [hstep]
        constructor
        · exact ho
        · intro acc rest0 h
          exact absurd h (hnorun acc rest0)
        · show endCount (trace s) = dsH01 s.ds + clH01 CLState.failed
          rw [hds] at hm
          simpa [clH01] using hm
        · exact hf
        · exact hdf
        · exact hq
        · exact hu
        · intro _; exact ⟨by simp, by simp⟩
        · intro h
          exact absurd (hnh h).2 hnotwait
        · exact hle
        · exact hrc
        · show clAOk I CLState.failed _
          simp [clAOk]
        · exact hem
      · have hstep : clStep I s = { s with cl := .finishing } := by
          simp [clStep, hds, hraise]
        rw [hstep]
        have hfa : List.filter itemIsA (trace s)
            = (answersOf I.clEvents).map OutItem.achunk := by
          rw [hds] at hac
          obtain ⟨pre, hpre, hfa⟩ := hac
          rw [List.append_nil] at hpre
          rw [hfa, ← hpre]
        constructor
        · exact ho
        · intro acc rest0 h
          exact absurd h (hnorun acc rest0)
        · show endCount (trace s) = dsH01 s.ds + clH01 CLState.finishing
          rw [hds] at hm
          simpa [clH01] using hm
        · exact hf
        · exact hdf
        · exact hq
        · exact hu
        · intro h; rw [h] at hraise; simp at hraise
        · intro h
          exact absurd (hnh h).2 hnotwait
        · exact hle
        · exact hrc
        · show clAOk I CLState.finishing _
          exact hfa
        · exact hem
    · cases ev with
      | answer c =>
        have hstep : clStep I s = { s with cl := .running rest2, outQ := s.outQ ++ [.achunk c] } := by
          simp [clStep, hds]
        rw [hstep]
        have htr : trace { s with cl := CLState.running rest2, outQ := s.outQ ++ [OutItem.achunk c] } = trace s ++ [OutItem.achunk c] := by
          simp [trace]
        obtain ⟨pre, hpre, hfa⟩ : ∃ pre, I.clEvents = pre ++ (CEvent.answer c :: rest2) ∧
            List.filter itemIsA (trace s) = (answersOf pre).map OutItem.achunk := by
          rw [hds] at hac
          exact hac
        constructor
        · rw [htr]
          exact noRafterA_append_notR _ _ rfl ho
        · intro acc rest0 h
          exact absurd h (hnorun acc rest0)
        · rw [htr, endCount_append, endCount_achunk]
          show endCount (trace s) + 0 = dsH01 s.ds + clH01 (CLState.running rest2)
          rw [hds] at hm
          simpa [clH01] using hm
        · exact hf
        · exact hdf
        · exact hq
        · exact hu
        · intro _; exact ⟨by simp, by simp⟩
        · intro h
          exact absurd (hnh h).2 hnotwait
        · intro h
          exfalso
          rw [htr, endCount_append, endCount_achunk] at h
          rw [hds] at hm
          simp only [clH01] at hm
          have := dsH01_le_one s.ds
          omega
        · rw [htr, List.filter_append]
          have : List.filter itemIsR [OutItem.achunk c] = [] := rfl
          rw [this, List.append_nil]
          exact hrc
        · rw [htr, List.filter_append]
          show clAOk I (CLState.running rest2) _
          refine ⟨pre ++ [CEvent.answer c], ?_, ?_⟩
          · rw [hpre]
            simp
          · rw [hfa, answersOf_append]
            simp [answersOf, itemIsA]
        · exact hem
      | other c =>
        have hstep : clStep I s = { s with cl := .running rest2 } := by
          simp [clStep, hds]
        rw [hstep]
        obtain ⟨pre, hpre, hfa⟩ : ∃ pre, I.clEvents = pre ++ (CEvent.other c :: rest2) ∧
            List.filter itemIsA (trace s) = (answersOf pre).map OutItem.achunk := by
          rw [hds] at hac
          exact hac
        constructor
        · exact ho
        · intro acc rest0 h
          exact absurd h (hnorun acc rest0)
        · show endCount (trace s) = dsH01 s.ds + clH01 (CLState.running rest2)
          rw [hds] at hm
          simpa [clH01] using hm
        · exact hf
        · exact hdf
        · exact hq
        · exact hu
        · intro _; exact ⟨by simp, by simp⟩
        · intro h
          exact absurd (hnh h).2 hnotwait
        · exact hle
        · exact hrc
        · show clAOk I (CLState.running rest2) (List.filter itemIsA (trace s))
          refine ⟨pre ++ [CEvent.other c], ?_, ?_⟩
          · rw [hpre]
            simp
          · rw [hfa, answersOf_append]
            simp [answersOf]
        · exact hem
  case finishing =>
    have hnotwait : s.cl ≠ CLState.waiting := by rw [hds]; simp
    have hnorun : ∀ acc rest0, s.ds ≠ DSState.running acc rest0 :=
      hdsNotRun (Or.inr hnotwait)
    have hstep : clStep I s = { s with cl := .halted, outQ := s.outQ ++ [.endMark] } := by
      simp [clStep, hds]
    rw [hstep]
    have htr : trace { s with cl := CLState.halted, outQ := s.outQ ++ [OutItem.endMark] } = trace s ++ [OutItem.endMark] := by
      simp [trace]
    have hfa : List.filter itemIsA (trace s)
        = (answersOf I.clEvents).map OutItem.achunk := by
      rw [hds] at hac
      exact hac
    constructor
    · rw [htr]
      exact noRafterA_append_notR _ _ rfl ho
    · intro acc rest0 h
      exact absurd h (hnorun acc rest0)
    · rw [htr, endCount_append, endCount_endMark]
      show endCount (trace s) + 1 = dsH01 s.ds + clH01 CLState.halted
      rw [hds] at hm
      simp only [clH01] at hm ⊢
      omega
    · exact hf
    · exact hdf
    · exact hq
    · exact hu
    · intro h
      exact absurd hds (hcf h).1
    · intro h
      exact absurd (hnh h).2 hnotwait
    · intro _
      rw [htr]
      exact List.getLast?_concat _
    · rw [htr, List.filter_append]
      have : List.filter itemIsR [OutItem.endMark] = [] := rfl
      rw [this, List.append_nil]
      exact hrc
    · rw [htr, List.filter_append]
      show clAOk I CLState.halted _
      have : List.filter itemIsA [OutItem.endMark] = [] := rfl
      rw [this, List.append_nil]
      exact hfa
    · exact hem
  case halted =>
    have hstep : clStep I s = s := by simp [clStep, hds]
    rw [hstep]
    exact ⟨ho, hdr, hm, hf, hdf, hq, hu, hcf, hnh, hle, hrc, hac, hem⟩
  case failed =>
    have hstep : clStep I s = s := by simp [clStep, hds]
    rw [hstep]
    exact ⟨ho, hdr, hm, hf, hdf, hq, hu, hcf, hnh, hle, hrc, hac, hem⟩

theorem trace_pop (s : Sys) (item : OutItem) (rest : List OutItem)
    (h : s.outQ = item :: rest) :
    s.popped ++ [item] ++ rest = trace s := by
  rw [trace, h]
  simp

theorem MInv_outStep (I : StreamInput) (s : Sys) (hI : MInv I s) :
    MInv I (outStep s) := by
  obtain ⟨ho, hdr, hm, hf, hdf, hq, hu, hcf, hnh, hle, hrc, hac, hem⟩ := hI
  by_cases hdone : s.doneEmitted = true
  · have hstep : outStep s = s := by simp [outStep, hdone]
    rw [hstep]
    exact ⟨ho, hdr, hm, hf, hdf, hq, hu, hcf, hnh, hle, hrc, hac, hem⟩
  · simp only [Bool.not_eq_true] at hdone
    rcases houtq : s.outQ with _ | ⟨item, rest⟩
    · have hstep : outStep s = s := by simp [outStep, hdone, houtq]
      rw [hstep]
      exact ⟨ho, hdr, hm, hf, hdf, hq, hu, hcf, hnh, hle, hrc, hac, hem⟩
    · have htr0 : s.popped ++ [item] ++ rest = trace s := trace_pop s item rest houtq
      cases item with
      | endMark =>
        by_cases h2 : s.finished + 1 = 2
        · have hstep : outStep s = { s with outQ := rest, popped := s.popped ++ [.endMark], finished := s.finished + 1, doneEmitted := true } := by
            simp [outStep, hdone, houtq, h2]
          rw [hstep]
          constructor
          · show noRafterA (s.popped ++ [OutItem.endMark] ++ rest) = true
            rw [htr0]; exact ho
          · intro acc rest0 h
            obtain ⟨a1, a2, a3, a4, a5⟩ := hdr acc rest0 h
            exact ⟨a1, a2, a3, a4, a5⟩
          · show endCount (s.popped ++ [OutItem.endMark] ++ rest) = _
            rw [htr0]
            exact hm
          · show s.finished + 1 = endCount (s.popped ++ [OutItem.endMark])
            rw [endCount_append, endCount_endMark, hf]
          · intro _
            exact h2
          · exact hq
          · exact hu
          · exact hcf
          · exact hnh
          · simp only [trace, List.append_assoc, List.singleton_append]
            rw [← houtq]
            exact hle
          · show List.filter itemIsR (s.popped ++ [OutItem.endMark] ++ rest) = _
            rw [htr0]
            exact hrc
          · show clAOk I s.cl (List.filter itemIsA (s.popped ++ [OutItem.endMark] ++ rest))
            rw [htr0]
            exact hac
          · show s.emitted = List.filter itemIsChunk (s.popped ++ [OutItem.endMark])
            rw [List.filter_append]
            have : List.filter itemIsChunk [OutItem.endMark] = [] := rfl
            rw [this, List.append_nil]
            exact hem
        · have hstep : outStep s = { s with outQ := rest, popped := s.popped ++ [.endMark], finished := s.finished + 1 } := by
            simp [outStep, hdone, houtq, h2]
          rw [hstep]
          constructor
          · show noRafterA (s.popped ++ [OutItem.endMark] ++ rest) = true
            rw [htr0]; exact ho
          · intro acc rest0 h
            obtain ⟨a1, a2, a3, a4, a5⟩ := hdr acc rest0 h
            exact ⟨a1, a2, a3, a4, a5⟩
          · show endCount (s.popped ++ [OutItem.endMark] ++ rest) = _
            rw [htr0]
            exact hm
          · show s.finished + 1 = endCount (s.popped ++ [OutItem.endMark])
            rw [endCount_append, endCount_endMark, hf]
          · intro h
            rw [hdone] at h
            simp at h
          · exact hq
          · exact hu
          · exact hcf
          · exact hnh
          · simp only [trace, List.append_assoc, List.singleton_append]
            rw [← houtq]
            exact hle
          · show List.filter itemIsR (s.popped ++ [OutItem.endMark] ++ rest) = _
            rw [htr0]
            exact hrc
          · show clAOk I s.cl (List.filter itemIsA (s.popped ++ [OutItem.endMark] ++ rest))
            rw [htr0]
            exact hac
          · show s.emitted = List.filter itemIsChunk (s.popped ++ [OutItem.endMark])
            rw [List.filter_append]
            have : List.filter itemIsChunk [OutItem.endMark] = [] := rfl
            rw [this, List.append_nil]
            exact hem
      | rchunk c =>
        have hstep : outStep s = { s with outQ := rest, popped := s.popped ++ [.rchunk c], emitted := s.emitted ++ [.rchunk c] } := by
          simp [outStep, hdone, houtq]
        rw [hstep]
        constructor
        · show noRafterA (s.popped ++ [OutItem.rchunk c] ++ rest) = true
          rw [htr0]; exact ho
        · intro acc rest0 h
          obtain ⟨a1, a2, a3, a4, a5⟩ := hdr acc rest0 h
          exact ⟨a1, a2, a3, a4, a5⟩
        · show endCount (s.popped ++ [OutItem.rchunk c] ++ rest) = _
          rw [htr0]
          exact hm
        · show s.finished = endCount (s.popped ++ [OutItem.rchunk c])
          simp [endCount_append, endCount_rchunk, hf]
        · intro h
          rw [hdone] at h
          simp at h
        · exact hq
        · exact hu
        · exact hcf
        · exact hnh
        · simp only [trace, List.append_assoc, List.singleton_append]
          rw [← houtq]
          exact hle
        · show List.filter itemIsR (s.popped ++ [OutItem.rchunk c] ++ rest) = _
          rw [htr0]
          exact hrc
        · show clAOk I s.cl (List.filter itemIsA (s.popped ++ [OutItem.rchunk c] ++ rest))
          rw [htr0]
          exact hac
        · show s.emitted ++ [OutItem.rchunk c]
              = List.filter itemIsChunk (s.popped ++ [OutItem.rchunk c])
          rw [List.filter_append]
          have : List.filter itemIsChunk [OutItem.rchunk c] = [OutItem.rchunk c] := rfl
          rw [this, hem]
      | achunk c =>
        have hstep : outStep s = { s with outQ := rest, popped := s.popped ++ [.achunk c], emitted := s.emitted ++ [.achunk c] } := by
          simp [outStep, hdone, houtq]
        rw [hstep]
        constructor
        · show noRafterA (s.popped ++ [OutItem.achunk c] ++ rest) = true
          rw [htr0]; exact ho
        · intro acc rest0 h
          obtain ⟨a1, a2, a3, a4, a5⟩ := hdr acc rest0 h
          exact ⟨a1, a2, a3, a4, a5⟩
        · show endCount (s.popped ++ [OutItem.achunk c] ++ rest) = _
          rw [htr0]
          exact hm
        · show s.finished = endCount (s.popped ++ [OutItem.achunk c])
          simp [endCount_append, endCount_achunk, hf]
        · intro h
          rw [hdone] at h
          simp at h
        · exact hq
        · exact hu
        · exact hcf
        · exact hnh
        · simp only [trace, List.append_assoc, List.singleton_append]
          rw [← houtq]
          exact hle
        · show List.filter itemIsR (s.popped ++ [OutItem.achunk c] ++ rest) = _
          rw [htr0]
          exact hrc
        · show clAOk I s.cl (List.filter itemIsA (s.popped ++ [OutItem.achunk c] ++ rest))
          rw [htr0]
          exact hac
        · show s.emitted ++ [OutItem.achunk c]
              = List.filter itemIsChunk (s.popped ++ [OutItem.achunk c])
          rw [List.filter_append]
          have : List.filter itemIsChunk [OutItem.achunk c] = [OutItem.achunk c] := rfl
          rw [this, hem]

theorem MInv_step (I : StreamInput) (s : Sys) (hI : MInv I s) :
    ∀ t, MInv I (step I s t)
  | .dsT => MInv_dsStep I s hI
  | .clT => MInv_clStep I s hI
  | .outT => MInv_outStep I s hI

theorem MInv_run (I : StreamInput) (sched : List Tid) : MInv I (run I sched) := by
  rw [run]
  have main : ∀ s, MInv I s → MInv I (sched.foldl (step I) s) := by
    induction sched with
    | nil => intro s hs; exact hs
    | cons t ts ih =>
      intro s hs
      exact ih _ (MInv_step I s hs t)
  exact main _ (MInv_init I)

/-! ## Chunk objects, rendering and SSE serialization -/

/-- The `delta` dictionary of a streamed chunk. `reasoning_content = none`
models the *absence* of the `"reasoning_content"` key (the answer-chunk
dictionary built in `process_claude` has only `"role"` and `"content"`). -/
structure ChunkDelta where
  role : String
  reasoning_content : Option String
  content : String
deriving DecidableEq

/-- One element of the `choices` array of a streamed chunk. -/
structure ChunkChoice where
  index : Nat
  delta : ChunkDelta
deriving DecidableEq

/-- One streamed chunk object. -/
structure ChatChunk where
  id : String
  object : String
  created : Nat
  model : String
  choices : List ChunkChoice
deriving DecidableEq

/-- Request-scoped identifiers of the streaming call: the `chat_id` and
`created` timestamp generated once before the tasks start, and the two
resolved upstream model identifiers. -/
structure StreamMeta where
  chatId : String
  createdTime : Nat
  deepseekModelId : String
  claudeModelId : String

/-- The chunk object built for one queue item: `process_deepseek` builds
`{role, reasoning_content, content: ""}` deltas under the DeepSeek model
id, `process_claude` builds `{role, content}` deltas under the Claude
model id; the `None` sentinel produces no chunk. -/
def renderItem (M : StreamMeta) : OutItem → Option ChatChunk
  | .rchunk s => some
    { id := M.chatId
      object := "chat.completion.chunk"
      created := M.createdTime
      model := M.deepseekModelId
      choices := [{ index := 0
                    delta := { role := "assistant"
                               reasoning_content := some s
                               content := "" } }] }
  | .achunk s => some
    { id := M.chatId
      object := "chat.completion.chunk"
      created := M.createdTime
      model := M.claudeModelId
      choices := [{ index := 0
                    delta := { role := "assistant"
                               reasoning_content := none
                               content := s } }] }
  | .endMark => none

/-- The chunk objects corresponding to a sequence of emitted items. -/
def renderedChunks (M : StreamMeta) (items : List OutItem) : List ChatChunk :=
  items.filterMap (renderItem M)

/-- Hexadecimal digit, lowercase, as produced by `json.dumps`. -/
def hexDigit (n : Nat) : Char :=
  if n < 10 then Char.ofNat (48 + n) else Char.ofNat (87 + n)

/-- Four-digit lowercase hexadecimal rendering of a code unit. -/
def toHex4 (n : Nat) : String :=
  String.mk [hexDigit (n / 4096 % 16), hexDigit (n / 256 % 16),
             hexDigit (n / 16 % 16), hexDigit (n % 16)]

/-- The `json.dumps` escaping of one character (default `ensure_ascii=True`):
quote, backslash and the short control escapes, `\uXXXX` for other
characters outside `0x20..0x7e` (with surrogate pairs above `0xffff`). -/
def jsonEscapeChar (c : Char) : String :=
  if c = '"' then "\\\""
  else if c = '\\' then "\\\\"
  else if c = '\n' then "\\n"
  else if c = '\r' then "\\r"
  else if c = '\t' then "\\t"
  else if c.toNat = 8 then "\\b"
  else if c.toNat = 12 then "\\f"
  else if c.toNat < 32 ∨ c.toNat > 126 then
    if c.toNat < 65536 then "\\u" ++ toHex4 c.toNat
    else
      "\\u" ++ toHex4 (55296 + (c.toNat - 65536) / 1024) ++
        "\\u" ++ toHex4 (56320 + (c.toNat - 65536) % 1024)
  else String.singleton c

/-- JSON string literal. -/
def jsonString (s : String) : String :=
  "\"" ++ String.join (s.data.map jsonEscapeChar) ++ "\""

/-- JSON rendering of a `delta` dictionary, key order as in the source
(`role`, then `reasoning_content` when present, then `content`; the
answer-chunk delta has no `reasoning_content` key). -/
def jsonOfDelta (d : ChunkDelta) : String :=
  match d.reasoning_content with
  | some r =>
    "\x7b\"role\": " ++ jsonString d.role ++ ", \"reasoning_content\": " ++
      jsonString r ++ ", \"content\": " ++ jsonString d.content ++ "\x7d"
  | none =>
    "\x7b\"role\": " ++ jsonString d.role ++ ", \"content\": " ++
      jsonString d.content ++ "\x7d"

/-- JSON rendering of one element of `choices`. -/
def jsonOfChoice (c : ChunkChoice) : String :=
  "\x7b\"index\": " ++ toString c.index ++ ", \"delta\": " ++
    jsonOfDelta c.delta ++ "\x7d"

/-- The rendering `json.dumps(response)` for a chunk, with the source's key order and
the default `", "`/`": "` separators. -/
def jsonOfChunk (c : ChatChunk) : String :=
  "\x7b" ++ ("\"id\": " ++ jsonString c.id ++ ", \"object\": " ++ jsonString c.object ++
    ", \"created\": " ++ toString c.created ++ ", \"model\": " ++
    jsonString c.model ++ ", \"choices\": [" ++
    String.intercalate ", " (c.choices.map jsonOfChoice) ++ "]\x7d")

/-- The byte string yielded for one chunk:
`f"data: {json.dumps(response)}\n\n".encode("utf-8")`. -/
def sseOfChunk (c : ChatChunk) : String :=
  "data: " ++ jsonOfChunk c ++ "\n\n"

/-- The terminal line `b"data: [DONE]\n\n"`. -/
def doneMarker : String := "data: [DONE]\n\n"

/-- The full sequence of byte strings yielded by
`chat_completions_with_stream` in a given machine state. -/
def streamOutput (M : StreamMeta) (s : Sys) : List String :=
  (renderedChunks M s.emitted).map sseOfChunk ++
    (if s.doneEmitted then [doneMarker] else [])

/-! ## Claim-level predicates on rendered chunks -/

/-- The chunk carries (non-empty) reasoning text. -/
def chunkHasReasoning (c : ChatChunk) : Bool :=
  c.choices.any (fun ch =>
    match ch.delta.reasoning_content with
    | some r => r ≠ ""
    | none => false)

/-- The chunk carries (non-empty) answer text. -/
def chunkHasContent (c : ChatChunk) : Bool :=
  c.choices.any (fun ch => ch.delta.content ≠ "")

/-- Once a chunk with non-empty `content` has been emitted, no later chunk
carries non-empty `reasoning_content`. -/
def noReasoningAfterContent : List ChatChunk → Bool
  | [] => true
  | c :: rest =>
    if chunkHasContent c then rest.all (fun d => !chunkHasReasoning d)
    else noReasoningAfterContent rest

theorem renderItem_rchunk_reasoning (M : StreamMeta) (s0 : String) (c : ChatChunk)
    (h : renderItem M (OutItem.rchunk s0) = some c) : chunkHasContent c = false := by
  simp only [renderItem, Option.some.injEq] at h
  rw [← h]
  simp [chunkHasContent]

theorem renderItem_notR_noReasoning (M : StreamMeta) (i : OutItem) (c : ChatChunk)
    (hi : itemIsR i = false) (h : renderItem M i = some c) :
    chunkHasReasoning c = false := by
  cases i with
  | rchunk s0 => simp [itemIsR] at hi
  | achunk s0 =>
    simp only [renderItem, Option.some.injEq] at h
    rw [← h]
    simp [chunkHasReasoning]
  | endMark => simp [renderItem] at h

theorem rendered_all_noReasoning (M : StreamMeta) (l : List OutItem)
    (h : l.all (fun j => !itemIsR j) = true) :
    (renderedChunks M l).all (fun d => !chunkHasReasoning d) = true := by
  induction l with
  | nil => rfl
  | cons i rest ih =>
    simp only [List.all_cons, Bool.and_eq_true] at h
    rw [renderedChunks, List.filterMap_cons]
    rcases hr : renderItem M i with _ | c
    · exact ih h.2
    · simp only [List.all_cons, Bool.and_eq_true]
      constructor
      · have : chunkHasReasoning c = false := by
          apply renderItem_notR_noReasoning M i c _ hr
          simpa using h.1
        simp [this]
      · exact ih h.2

theorem noRafterA_rendered (M : StreamMeta) (l : List OutItem)
    (h : noRafterA l = true) :
    noReasoningAfterContent (renderedChunks M l) = true := by
  induction l with
  | nil => rfl
  | cons i rest ih =>
    rw [renderedChunks, List.filterMap_cons]
    cases i with
    | rchunk s0 =>
      simp only [noRafterA, itemIsA] at h
      rcases hr : renderItem M (OutItem.rchunk s0) with _ | c
      · simp [renderItem] at hr
      · simp only [noReasoningAfterContent]
        rw [renderItem_rchunk_reasoning M s0 c hr]
        simp only [Bool.false_eq_true, if_neg]
        exact ih h
    | achunk s0 =>
      simp only [noRafterA, itemIsA, if_pos] at h
      rcases hr : renderItem M (OutItem.achunk s0) with _ | c
      · simp [renderItem] at hr
      · simp only [noReasoningAfterContent]
        by_cases hc : chunkHasContent c = true
        · rw [hc]
          simp only [if_pos]
          exact rendered_all_noReasoning M rest h
        · simp only [Bool.not_eq_true] at hc
          rw [hc]
          simp only [Bool.false_eq_true, if_neg]
          have hnor : noRafterA rest = true := all_notR_noRafterA rest h
          exact ih hnor
    | endMark =>
      simp only [noRafterA, itemIsA] at h
      exact ih h

/-! ## Consequences of the master invariant -/

theorem emitted_sublist_trace (s : Sys) (hem : s.emitted = s.popped.filter itemIsChunk) :
    List.Sublist s.emitted (trace s) := by
  rw [hem, trace]
  exact (List.filter_sublist _).trans (List.sublist_append_left _ _)

/-- In every reachable state, no reasoning chunk has been yielded after an
answer chunk. -/
theorem run_emitted_noRafterA (I : StreamInput) (sched : List Tid) :
    noRafterA (run I sched).emitted = true := by
  have hI := MInv_run I sched
  exact noRafterA_sublist _ _ (emitted_sublist_trace _ hI.emittedEq) hI.order

theorem countP_sublist {p : OutItem → Bool} {l1 l2 : List OutItem}
    (h : List.Sublist l1 l2) : l1.countP p ≤ l2.countP p := by
  induction h with
  | slnil => exact Nat.le_refl _
  | cons a _ ih =>
    rw [List.countP_cons]
    omega
  | cons₂ a _ ih =>
    rw [List.countP_cons, List.countP_cons]
    omega

/-- If `process_claude` can never contribute its `None` sentinel, the
consumer loop never observes two of them, so `b"data: [DONE]"` is never
yielded. -/
theorem neverDone_of_clH0 (I : StreamInput) (sched : List Tid)
    (hcl : clH01 (run I sched).cl = 0) : (run I sched).doneEmitted = false := by
  have hI := MInv_run I sched
  by_contra hc
  simp only [Bool.not_eq_false] at hc
  have h2 : (run I sched).finished = 2 := hI.doneFin hc
  have hle : (run I sched).finished ≤ endCount (trace (run I sched)) := by
    rw [hI.fin]
    exact countP_sublist (List.sublist_append_left _ _)
  have := hI.marks
  have := dsH01_le_one (run I sched).ds
  omega

/-- If the DeepSeek stream closes without a content event and without an
exception, the handoff never happens: the answer leg stays blocked on
`claude_queue.get()` forever and the stream never terminates. -/
theorem run_noHandoff (I : StreamInput) (h : handoffVal I = none) (sched : List Tid) :
    (run I sched).cl = CLState.waiting ∧ (run I sched).claudeQ = [] ∧
      (run I sched).used = none ∧ (run I sched).doneEmitted = false := by
  have hI := MInv_run I sched
  obtain ⟨hq, hcl⟩ := hI.noHandoff h
  refine ⟨hcl, hq, ?_, ?_⟩
  · rcases hu : (run I sched).used with _ | r
    · rfl
    · obtain ⟨h0, hh0, _⟩ := hI.usedInv r hu
      rw [h] at hh0
      exact absurd hh0 (by simp)
  · apply neverDone_of_clH0
    rw [hcl]
    rfl

/-- If the Claude stream raises, `process_claude` never reaches its
`output_queue.put(None)`, and the stream never terminates. -/
theorem run_clRaises_neverDone (I : StreamInput) (h : I.clRaises = true)
    (sched : List Tid) : (run I sched).doneEmitted = false := by
  have hI := MInv_run I sched
  apply neverDone_of_clH0
  obtain ⟨h1, h2⟩ := hI.clNoFin h
  rcases hcl : (run I sched).cl <;> simp [clH01]
  exact absurd hcl h2

theorem noR_chunks_eq_A : ∀ l : List OutItem, l.all (fun j => !itemIsR j) = true →
    l.filter itemIsChunk = l.filter itemIsA := by
  intro l h
  induction l with
  | nil => rfl
  | cons i rest ih =>
    simp only [List.all_cons, Bool.and_eq_true] at h
    cases i with
    | rchunk c => simp [itemIsR] at h
    | achunk c => simp [List.filter_cons, itemIsChunk, itemIsA, ih h.2]
    | endMark => simp [List.filter_cons, itemIsChunk, itemIsA, ih h.2]

/-- With no reasoning chunk after an answer chunk, the chunk subsequence
splits as all reasoning chunks followed by all answer chunks. -/
theorem chunks_split : ∀ l : List OutItem, noRafterA l = true →
    l.filter itemIsChunk = l.filter itemIsR ++ l.filter itemIsA := by
  intro l h
  induction l with
  | nil => rfl
  | cons i rest ih =>
    cases i with
    | rchunk c =>
      simp only [noRafterA, itemIsA, Bool.false_eq_true, if_neg] at h
      simp [List.filter_cons, itemIsChunk, itemIsR, itemIsA, ih h]
    | achunk c =>
      simp only [noRafterA, itemIsA, if_pos] at h
      have hR : rest.filter itemIsR = [] := by
        rw [List.filter_eq_nil]
        intro a ha
        have := List.all_eq_true.mp h a ha
        simpa using this
      simp [List.filter_cons, itemIsChunk, itemIsR, itemIsA, hR, noR_chunks_eq_A rest h]
    | endMark =>
      simp only [noRafterA, itemIsA, Bool.false_eq_true, if_neg] at h
      simp [List.filter_cons, itemIsChunk, itemIsR, itemIsA, ih h]

/-- Whenever the consumer loop has terminated (the `[DONE]` line was
yielded), the yielded chunk items are exactly: one reasoning chunk per
collected reasoning fragment, in stream order, followed by one answer
chunk per answer fragment, in stream order. -/
theorem run_done_emitted_exact (I : StreamInput) (sched : List Tid)
    (hdone : (run I sched).doneEmitted = true) :
    (run I sched).emitted
      = (collectReasoning I.dsEvents).map OutItem.rchunk ++
        (answersOf I.clEvents).map OutItem.achunk := by
  have hI := MInv_run I sched
  set s := run I sched with hs
  have h2 : s.finished = 2 := hI.doneFin hdone
  have hcnt : endCount s.popped = 2 := by rw [← hI.fin]; exact h2
  have htr2 : endCount (trace s) = dsH01 s.ds + clH01 s.cl := hI.marks
  have hpop_le : endCount s.popped ≤ endCount (trace s) :=
    countP_sublist (List.sublist_append_left _ _)
  have hds1 : dsH01 s.ds = 1 ∧ clH01 s.cl = 1 := by
    have := dsH01_le_one s.ds
    have := clH01_le_one s.cl
    omega
  have hdsH : s.ds = DSState.halted := by
    rcases h : s.ds with ⟨a0, r0⟩ | _ | _ | _
    · rw [h] at hds1; simp [dsH01] at hds1
    · rw [h] at hds1; simp [dsH01] at hds1
    · rfl
    · rw [h] at hds1; simp [dsH01] at hds1
  have hclH : s.cl = CLState.halted := by
    rcases h : s.cl with _ | r0 | _ | _ | _
    · rw [h] at hds1; simp [clH01] at hds1
    · rw [h] at hds1; simp [clH01] at hds1
    · rw [h] at hds1; simp [clH01] at hds1
    · rfl
    · rw [h] at hds1; simp [clH01] at hds1
  have houtQ : s.outQ = [] := by
    have htrc : endCount (trace s) = 2 := by
      rw [htr2, hdsH, hclH]
      rfl
    have hqcnt : endCount s.outQ = 0 := by
      have : endCount (trace s) = endCount s.popped + endCount s.outQ := by
        rw [trace, endCount_append]
      omega
    rcases hq : s.outQ with _ | ⟨i, rest⟩
    · rfl
    · exfalso
      have hlast := hI.lastEnd htrc
      rw [trace, hq] at hlast
      rw [List.getLast?_append_of_ne_nil _ (by simp)] at hlast
      have hmem : OutItem.endMark ∈ i :: rest := by
        obtain ⟨hne, heq⟩ := List.mem_getLast?_eq_getLast
          (x := OutItem.endMark) (by rw [Option.mem_def]; exact hlast)
        rw [heq]
        exact List.getLast_mem hne
      rw [hq] at hqcnt
      have : 0 < endCount (i :: rest) := by
        rw [endCount]
        apply List.countP_pos_iff.mpr
        exact ⟨OutItem.endMark, hmem, by simp⟩
      omega
  have htr_eq : trace s = s.popped := by
    rw [trace, houtQ, List.append_nil]
  have hem := hI.emittedEq
  rw [hem, ← htr_eq, chunks_split _ hI.order, hI.rchunks, hdsH]
  have hach : (trace s).filter itemIsA = (answersOf I.clEvents).map OutItem.achunk := by
    have := hI.achunks
    rw [hclH] at this
    exact this
  rw [hach]
  rfl

/-- Draining the output queue: if fewer than two sentinels are pending,
running the consumer once per queued item yields every queued chunk and
leaves the queue empty without terminating the stream. -/
theorem drain_run (I : StreamInput) : ∀ (q : List OutItem) (s : Sys),
    s.outQ = q → s.doneEmitted = false → s.finished + endCount q ≤ 1 →
    ((List.replicate q.length Tid.outT).foldl (step I) s).emitted
        = s.emitted ++ q.filter itemIsChunk ∧
    ((List.replicate q.length Tid.outT).foldl (step I) s).outQ = [] ∧
    ((List.replicate q.length Tid.outT).foldl (step I) s).doneEmitted = false := by
  intro q
  induction q with
  | nil =>
    intro s hq hdone _
    simp [hq, hdone]
  | cons i rest ih =>
    intro s hq hdone hcnt
    rw [List.length_cons, List.replicate_succ, List.foldl_cons]
    have hstep_out : step I s Tid.outT = outStep s := rfl
    cases i with
    | endMark =>
      have hcnt1 : endCount (OutItem.endMark :: rest) = endCount rest + 1 := by
        rw [endCount, List.countP_cons]
        simp [endCount]
      have hne2 : ¬ (s.finished + 1 = 2) := by omega
      have hs' : outStep s = { s with outQ := rest, popped := s.popped ++ [.endMark], finished := s.finished + 1 } := by
        simp [outStep, hdone, hq, hne2]
      rw [hstep_out, hs']
      have := ih { s with outQ := rest, popped := s.popped ++ [.endMark], finished := s.finished + 1 } rfl (by simpa using hdone) (by simp; omega)
      simp only at this
      refine ⟨?_, this.2.1, this.2.2⟩
      rw [this.1]
      simp [List.filter_cons, itemIsChunk]
    | rchunk c =>
      have hs' : outStep s = { s with outQ := rest, popped := s.popped ++ [.rchunk c], emitted := s.emitted ++ [.rchunk c] } := by
        simp [outStep, hdone, hq]
      rw [hstep_out, hs']
      have hcnt1 : endCount (OutItem.rchunk c :: rest) = endCount rest := by
        rw [endCount, List.countP_cons]
        simp [endCount]
      have := ih { s with outQ := rest, popped := s.popped ++ [.rchunk c], emitted := s.emitted ++ [.rchunk c] } rfl (by simpa using hdone) (by simp; omega)
      simp only at this
      refine ⟨?_, this.2.1, this.2.2⟩
      rw [this.1]
      simp [List.filter_cons, itemIsChunk]
    | achunk c =>
      have hs' : outStep s = { s with outQ := rest, popped := s.popped ++ [.achunk c], emitted := s.emitted ++ [.achunk c] } := by
        simp [outStep, hdone, hq]
      rw [hstep_out, hs']
      have hcnt1 : endCount (OutItem.achunk c :: rest) = endCount rest := by
        rw [endCount, List.countP_cons]
        simp [endCount]
      have := ih { s with outQ := rest, popped := s.popped ++ [.achunk c], emitted := s.emitted ++ [.achunk c] } rfl (by simpa using hdone) (by simp; omega)
      simp only at this
      refine ⟨?_, this.2.1, this.2.2⟩
      rw [this.1]
      simp [List.filter_cons, itemIsChunk]

theorem lbrace_ne_doneMarker (x y : String) :
    "data: " ++ ("\x7b" ++ x) ++ y ≠ "data: [DONE]\n\n" := by
  intro h
  have hd := congrArg String.data h
  simp only [String.data_append] at hd
  simp at hd

/-- The terminal `b"data: [DONE]\n\n"` line differs from the serialization
of every chunk (a chunk line continues with the JSON object opener). -/
theorem sseOfChunk_ne_doneMarker (c : ChatChunk) : sseOfChunk c ≠ doneMarker :=
  lbrace_ne_doneMarker _ _

/-! ## Auxiliary facts about the non-streaming phases -/

/-- With no content event, the exhausted-stream exception always fires. -/
theorem clAnswerParts_raises : ∀ l : List CEvent, clAnswerParts l true = .error () := by
  intro l
  induction l with
  | nil => rfl
  | cons e rest ih =>
    cases e with
    | answer s => rw [clAnswerParts, ih]; rfl
    | other s => rw [clAnswerParts]; exact ih

theorem dsReasoningParts_raises : ∀ l : List DSEvent, hasContentEvent l = false →
    dsReasoningParts l true = .error () := by
  intro l h
  induction l with
  | nil => rfl
  | cons e rest ih =>
    cases e with
    | reasoning s =>
      rw [hasContentEvent] at h
      rw [dsReasoningParts, ih h]
      rfl
    | content s => rw [hasContentEvent] at h; exact absurd h (by simp)

theorem setLastContent_roles : ∀ (l : List Message) (s : String),
    (setLastContent l s).map Message.role = l.map Message.role := by
  intro l s
  induction l with
  | nil => rfl
  | cons m rest ih =>
    cases rest with
    | nil => rfl
    | cons m2 rest2 =>
      rw [setLastContent, List.map_cons, List.map_cons, ih]

/-! ## Concrete fixtures used by witnesses and counterexamples -/

/-- A concrete environment for the non-streaming call: a deterministic
stand-in tokenizer and fixed request identifiers. -/
def nsParamsFix : NSParams :=
  { enc := fun s => List.replicate s.length 0
    chatId := "chatcmpl-fix"
    createdTime := 1111
    claudeModelId := "claude-base" }

/-- The spec example's message list `[{system,S},{user,U}]`. -/
def exMessages : List Message := [⟨"system", "S"⟩, ⟨"user", "U"⟩]

/-- The spec example's reasoning stream
`[(reasoning,"r1"),(reasoning,"r2"),(content,"")]`. -/
def exDsEvents : List DSEvent := [.reasoning "r1", .reasoning "r2", .content ""]

/-- The spec example's answer stream `[(answer,"a1"),(answer,"a2")]`. -/
def exClEvents : List CEvent := [.answer "a1", .answer "a2"]

/-- The spec example as a streaming request. -/
def exStreamInput : StreamInput :=
  { messages := exMessages
    dsEvents := exDsEvents
    dsRaises := false
    clEvents := exClEvents
    clRaises := false }

/-- A complete schedule for the spec example: the DeepSeek task runs to
completion, then the Claude task, then the consumer drains the queue. -/
def exSched : List Tid :=
  List.replicate 4 .dsT ++ List.replicate 5 .clT ++ List.replicate 6 .outT

/-- Concrete request identifiers for rendering. -/
def exMeta : StreamMeta :=
  { chatId := "chatcmpl-x"
    createdTime := 111
    deepseekModelId := "deepseek-base"
    claudeModelId := "claude-base" }

/-- A reasoning stream that closes after one reasoning event, without any
content event and without an exception. -/
def noContentInput : StreamInput :=
  { messages := [⟨"user", "U"⟩]
    dsEvents := [.reasoning "r1"]
    dsRaises := false
    clEvents := [.answer "a1"]
    clRaises := false }

/-- A reasoning stream that raises before producing anything. -/
def dsFailInput : StreamInput :=
  { messages := [⟨"user", "U"⟩]
    dsEvents := []
    dsRaises := true
    clEvents := [.answer "a1"]
    clRaises := false }

/-- A schedule on which the failed reasoning leg hands over, the answer
leg runs to completion and the consumer drains its chunk. -/
def dsFailSched : List Tid := [.dsT, .clT, .clT, .clT, .clT, .outT, .outT]

/-- An answer stream that raises after one delivered answer event. -/
def answerRaisesInput : StreamInput :=
  { messages := [⟨"user", "U"⟩]
    dsEvents := [.reasoning "r1", .content ""]
    dsRaises := false
    clEvents := [.answer "a1"]
    clRaises := true }

/-- A normal request on a single user message (used to exhibit the
in-place mutation of the caller's message). -/
def mutStreamInput : StreamInput :=
  { messages := [⟨"user", "U"⟩]
    dsEvents := [.reasoning "r1", .content ""]
    dsRaises := false
    clEvents := [.answer "a1"]
    clRaises := false }

/-- Run the reasoning leg to its handoff, then let the answer leg splice. -/
def mutSched : List Tid := [.dsT, .dsT, .clT]

/-! ## The claims -/

/-- C1: in streaming mode, for every request and every interleaving of the
two concurrent legs, no chunk whose delta carries non-empty
`reasoning_content` is ever emitted after a chunk whose delta carries
non-empty `content`: the handoff through `claude_queue` orders every
reasoning chunk before every answer chunk in the merged output. -/
theorem c1_reasoning_chunks_before_answer_chunks (M : StreamMeta)
    (I : StreamInput) (sched : List Tid) :
    noReasoningAfterContent (renderedChunks M (run I sched).emitted) = true :=
  noRafterA_rendered M _ (run_emitted_noRafterA I sched)

/-- C2: the claim is right and the code is wrong.  When the reasoning
provider's stream closes after `(reasoning,"r1")` without any
content-kind event (and without raising), `process_deepseek` never
executes `claude_queue.put`, so under every schedule the answer leg stays
blocked on `claude_queue.get()`, the handoff slot stays empty, no
reasoning text is ever used, and the `b"data: [DONE]"` terminator is
never yielded — the stream hangs instead of degrading as specified. -/
theorem c2_stream_close_without_content_never_hands_off (sched : List Tid) :
    (run noContentInput sched).cl = CLState.waiting ∧
    (run noContentInput sched).claudeQ = [] ∧
    (run noContentInput sched).used = none ∧
    (run noContentInput sched).doneEmitted = false :=
  run_noHandoff noContentInput rfl sched

/-- C3 counterexample: in non-streaming mode a reasoning-leg failure is
re-raised, so the call aborts with the provider error instead of running
the answer leg with the placeholder. -/
theorem c3_nonstream_failure_aborts_counterexample :
    (chatCompletionsWithoutStream nsParamsFix [⟨"user", "U"⟩] [] true
      [.answer "a1"] false).result = Except.error NSError.reasoningLegError := rfl

/-- C3 (amended): in streaming mode, whenever the reasoning leg fails
before the handoff or collects zero reasoning fragments, the answer leg
proceeds with the fixed placeholder `"获取推理内容失败"` (and does run, as the
concrete schedule shows).  In non-streaming mode, a reasoning-leg failure
is re-raised and aborts the request before the answer leg, and zero
reasoning events yield an empty reasoning string, not the placeholder. -/
theorem c3_reasoning_failure_placeholder_amended :
    (∀ (I : StreamInput) (sched : List Tid) (r : String),
      hasContentEvent I.dsEvents = false → (run I sched).used = some r →
      r = reasoningFailedText) ∧
    (∀ (I : StreamInput) (sched : List Tid) (r : String),
      collectReasoning I.dsEvents = [] → (run I sched).used = some r →
      r = reasoningFailedText) ∧
    ((run dsFailInput dsFailSched).used = some reasoningFailedText ∧
      (run dsFailInput dsFailSched).emitted = [OutItem.achunk "a1"]) ∧
    (∀ (P : NSParams) (msgs : List Message) (clE : List CEvent) (clR : Bool)
      (dsE : List DSEvent), hasContentEvent dsE = false →
      (chatCompletionsWithoutStream P msgs dsE true clE clR).result
        = Except.error NSError.reasoningLegError) ∧
    (∃ resp, (chatCompletionsWithoutStream nsParamsFix [⟨"user", "U"⟩]
        [.content ""] false [.answer "a1"] false).result = Except.ok resp ∧
      resp.choices.map (fun c => c.message.reasoning_content) = [""]) := by
  refine ⟨?_, ?_, ⟨rfl, rfl⟩, ?_, ⟨_, rfl, rfl⟩⟩
  · intro I sched r h1 h2
    obtain ⟨h0, hh, hr⟩ := (MInv_run I sched).usedInv r h2
    rw [handoffVal, h1] at hh
    rcases hraise : I.dsRaises
    · rw [hraise] at hh
      simp at hh
    · rw [hraise] at hh
      simp at hh
      subst hh
      rw [hr]
      simp
  · intro I sched r h1 h2
    obtain ⟨h0, hh, hr⟩ := (MInv_run I sched).usedInv r h2
    rw [handoffVal, h1] at hh
    rcases hce : hasContentEvent I.dsEvents
    · rw [hce] at hh
      rcases hraise : I.dsRaises
      · rw [hraise] at hh
        simp at hh
      · rw [hraise] at hh
        simp at hh
        subst hh
        rw [hr]
        simp
    · rw [hce] at hh
      simp at hh
      subst hh
      rw [hr, show String.join [] = "" from rfl]
      simp
  · intro P msgs clE clR dsE h
    rw [chatCompletionsWithoutStream, dsReasoningParts_raises dsE h]

/-- C4 counterexample: when the answering provider's stream raises, the
Claude task dies before its `output_queue.put(None)`, so the consumer
loop never counts two sentinels: under no schedule is the terminal
`b"data: [DONE]"` line ever yielded, contradicting the claimed "reasoning
chunks followed by a terminal marker". -/
theorem c4_no_terminal_marker_counterexample :
    ¬ ∃ sched : List Tid, (run answerRaisesInput sched).doneEmitted = true := by
  rintro ⟨sched, h⟩
  rw [run_clRaises_neverDone answerRaisesInput rfl sched] at h
  exact absurd h (by simp)

/-- C4 (amended): an answer-leg provider failure is fatal in non-streaming
mode — no response object is ever produced.  In streaming mode, every
chunk already in the output queue is still drained to the caller, but the
dead task's sentinel is missing, so the terminal marker is never emitted
and the error never surfaces through the generator. -/
theorem c4_answer_failure_amended :
    (∀ (P : NSParams) (msgs : List Message) (dsE : List DSEvent) (dsR : Bool)
      (clE : List CEvent) (resp : ChatResponse),
      (chatCompletionsWithoutStream P msgs dsE dsR clE true).result
        ≠ Except.ok resp) ∧
    (∀ (msgs : List Message) (dsE : List DSEvent) (dsR : Bool)
      (clE : List CEvent) (sched : List Tid),
      (run ⟨msgs, dsE, dsR, clE, true⟩ sched).doneEmitted = false) ∧
    (∀ (msgs : List Message) (dsE : List DSEvent) (dsR : Bool)
      (clE : List CEvent) (sched : List Tid),
      (run ⟨msgs, dsE, dsR, clE, true⟩
          (sched ++ List.replicate
            (run ⟨msgs, dsE, dsR, clE, true⟩ sched).outQ.length Tid.outT)).emitted
        = (run ⟨msgs, dsE, dsR, clE, true⟩ sched).emitted ++
          (run ⟨msgs, dsE, dsR, clE, true⟩ sched).outQ.filter itemIsChunk) := by
  refine ⟨?_, ?_, ?_⟩
  · intro P msgs dsE dsR clE resp
    rw [chatCompletionsWithoutStream]
    rcases h1 : dsReasoningParts dsE dsR with e | parts
    · simp [h1]
    · rcases h2 : spliceNoStream msgs (String.join parts) with e2 | sp
      · simp [h1, h2]
      · simp [h1, h2, clAnswerParts_raises]
  · intro msgs dsE dsR clE sched
    exact run_clRaises_neverDone _ rfl sched
  · intro msgs dsE dsR clE sched
    have hI := MInv_run ⟨msgs, dsE, dsR, clE, true⟩ sched
    set s := run ⟨msgs, dsE, dsR, clE, true⟩ sched with hs
    have hdone : s.doneEmitted = false := run_clRaises_neverDone _ rfl sched
    have hclH : clH01 s.cl = 0 := by
      obtain ⟨h1, h2⟩ := hI.clNoFin rfl
      rcases h : s.cl <;> simp [clH01]
      exact absurd h h2
    have hbound : s.finished + endCount s.outQ ≤ 1 := by
      have hm := hI.marks
      rw [trace, endCount_append, hI.fin.symm] at hm
      have := dsH01_le_one s.ds
      omega
    have hdrain := drain_run ⟨msgs, dsE, dsR, clE, true⟩ s.outQ s rfl hdone hbound
    rw [run, List.foldl_append, ← run, ← hs]
    exact hdrain.1

/-- C5 counterexample: in non-streaming mode, a message list whose final
message is not from the user does not make the splice fail — the call
proceeds with the reasoning left unspliced. -/
theorem c5_nostream_nonuser_last_ok_counterexample :
    spliceNoStream [⟨"assistant", "x"⟩] "r"
      = Except.ok ⟨[⟨"assistant", "x"⟩], "", [⟨"assistant", "x"⟩]⟩ := rfl

/-- C5 (amended): the streaming splice fails with the empty-list
`ValueError` when nothing remains after system removal and with the
not-user `ValueError` when the final remaining message is not from the
user (in particular on `[]` and on `[{assistant,"x"}]`).  The
non-streaming splice instead raises `IndexError` on an empty remainder,
and on a non-user final message it succeeds without splicing. -/
theorem c5_splice_failures_amended :
    (∀ (msgs : List Message) (r : String), nonSystem msgs = [] →
      spliceStream msgs r = Except.error SpliceError.emptyMessageList) ∧
    (∀ (msgs : List Message) (r : String) (last : Message),
      (nonSystem msgs).getLast? = some last → last.role ≠ "user" →
      spliceStream msgs r = Except.error SpliceError.lastMessageNotUser) ∧
    (spliceStream [] "r" = Except.error SpliceError.emptyMessageList ∧
      spliceStream [⟨"assistant", "x"⟩] "r"
        = Except.error SpliceError.lastMessageNotUser) ∧
    (∀ (msgs : List Message) (r : String), nonSystem msgs = [] →
      spliceNoStream msgs r = Except.error SpliceError.indexOutOfRange) ∧
    (∀ (msgs : List Message) (r : String) (last : Message),
      (nonSystem msgs).getLast? = some last → last.role ≠ "user" →
      spliceNoStream msgs r
        = Except.ok ⟨nonSystem msgs, systemText msgs, msgs⟩) := by
  refine ⟨?_, ?_, ⟨rfl, rfl⟩, ?_, ?_⟩
  · intro msgs r h
    rw [spliceStream, h]
    rfl
  · intro msgs r last h1 h2
    rw [spliceStream, h1]
    exact if_pos h2
  · intro msgs r h
    rw [spliceNoStream, h]
    rfl
  · intro msgs r last h1 h2
    rw [spliceNoStream, h1]
    exact if_neg h2

/-- C6: the spec's end-to-end example.  In streaming mode, on every
schedule that terminates (yields `[DONE]`) the emitted chunk items are
exactly reasoning("r1"), reasoning("r2"), answer("a1"), answer("a2") in
that order; the given fair schedule does terminate, rendering exactly the
four chunk objects followed by the end-of-stream marker.  In
non-streaming mode the same streams produce one response with
`reasoning_content = "r1r2"` and `content = "a1a2"`. -/
theorem c6_example_end_to_end :
    (∀ sched : List Tid, (run exStreamInput sched).doneEmitted = true →
      (run exStreamInput sched).emitted
        = [OutItem.rchunk "r1", OutItem.rchunk "r2",
           OutItem.achunk "a1", OutItem.achunk "a2"]) ∧
    (run exStreamInput exSched).doneEmitted = true ∧
    renderedChunks exMeta (run exStreamInput exSched).emitted
      = [⟨"chatcmpl-x", "chat.completion.chunk", 111, "deepseek-base",
            [⟨0, ⟨"assistant", some "r1", ""⟩⟩]⟩,
         ⟨"chatcmpl-x", "chat.completion.chunk", 111, "deepseek-base",
            [⟨0, ⟨"assistant", some "r2", ""⟩⟩]⟩,
         ⟨"chatcmpl-x", "chat.completion.chunk", 111, "claude-base",
            [⟨0, ⟨"assistant", none, "a1"⟩⟩]⟩,
         ⟨"chatcmpl-x", "chat.completion.chunk", 111, "claude-base",
            [⟨0, ⟨"assistant", none, "a2"⟩⟩]⟩] ∧
    streamOutput exMeta (run exStreamInput exSched)
      = (renderedChunks exMeta (run exStreamInput exSched).emitted).map sseOfChunk
          ++ [doneMarker] ∧
    (∀ P : NSParams, ∃ resp,
      (chatCompletionsWithoutStream P exMessages exDsEvents false exClEvents
          false).result = Except.ok resp ∧
      resp.choices.map (fun c => c.message.reasoning_content) = ["r1r2"] ∧
      resp.choices.map (fun c => c.message.content) = ["a1a2"]) := by
  refine ⟨?_, rfl, rfl, rfl, fun P => ⟨_, rfl, rfl, rfl⟩⟩
  intro sched h
  rw [run_done_emitted_exact exStreamInput sched h]
  rfl

/-- C7: every non-streaming response satisfies
`usage.total_tokens = usage.prompt_tokens + usage.completion_tokens`
(the source computes it as `len(input_tokens + output_tokens)`); all
three counts are `Nat`s, hence non-negative. -/
theorem c7_usage_total_equals_sum (P : NSParams) (msgs : List Message)
    (dsE : List DSEvent) (dsR : Bool) (clE : List CEvent) (clR : Bool)
    (resp : ChatResponse)
    (h : (chatCompletionsWithoutStream P msgs dsE dsR clE clR).result
      = Except.ok resp) :
    resp.usage.total_tokens
      = resp.usage.prompt_tokens + resp.usage.completion_tokens := by
  rw [chatCompletionsWithoutStream] at h
  rcases h1 : dsReasoningParts dsE dsR with e | parts
  · simp only [h1] at h
    exact absurd h (by simp)
  · simp only [h1] at h
    rcases h2 : spliceNoStream msgs (String.join parts) with e2 | sp
    · simp only [h2] at h
      exact absurd h (by simp)
    · simp only [h2] at h
      rcases h3 : clAnswerParts clE clR with e3 | answers
      · simp only [h3] at h
        exact absurd h (by simp)
      · simp only [h3, Except.ok.injEq] at h
        rw [← h]
        simp [List.length_append]

/-- Witness for C7 at the concrete example request. -/
theorem c7_usage_total_witness :
    ∃ resp, (chatCompletionsWithoutStream nsParamsFix exMessages exDsEvents
        false exClEvents false).result = Except.ok resp ∧
      resp.usage.total_tokens
        = resp.usage.prompt_tokens + resp.usage.completion_tokens :=
  ⟨_, rfl, c7_usage_total_equals_sum nsParamsFix exMessages exDsEvents false
    exClEvents false _ rfl⟩

/-- C8 counterexample: a concrete terminating run emits an answer chunk
whose delta dictionary has no `reasoning_content` key at all (the source
builds answer deltas as `{"role", "content"}` only), refuting "each
chunk's delta contains role together with reasoning_content and content
fields". -/
theorem c8_answer_delta_missing_reasoning_counterexample :
    (renderedChunks exMeta (run exStreamInput exSched).emitted).any
      (fun c => c.choices.any (fun ch => ch.delta.reasoning_content.isNone))
      = true := rfl

/-- C8 (amended): every emitted chunk carries the request's fixed `id` and
`created`, object `"chat.completion.chunk"`, one choice of index 0 with
delta role `"assistant"`; a chunk with a `reasoning_content` field is a
reasoning chunk (DeepSeek model id, empty `content`), while a chunk
without one is an answer chunk (Claude model id); and no chunk's wire
serialization equals the `b"data: [DONE]"` terminator. -/
theorem c8_chunk_shape_amended (M : StreamMeta) (I : StreamInput)
    (sched : List Tid) (c : ChatChunk)
    (hc : c ∈ renderedChunks M (run I sched).emitted) :
    c.id = M.chatId ∧ c.object = "chat.completion.chunk" ∧
    c.created = M.createdTime ∧
    (∀ ch ∈ c.choices, ch.index = 0 ∧ ch.delta.role = "assistant") ∧
    ((∃ r0, ∃ ch ∈ c.choices, ch.delta.reasoning_content = some r0) →
      c.model = M.deepseekModelId ∧ ∀ ch ∈ c.choices, ch.delta.content = "") ∧
    ((∀ ch ∈ c.choices, ch.delta.reasoning_content = none) →
      c.model = M.claudeModelId) ∧
    sseOfChunk c ≠ doneMarker := by
  rw [renderedChunks] at hc
  obtain ⟨i, hi, hri⟩ := List.mem_filterMap.mp hc
  cases i with
  | rchunk s0 =>
    simp only [renderItem, Option.some.injEq] at hri
    subst hri
    refine ⟨rfl, rfl, rfl, ?_, ?_, ?_, sseOfChunk_ne_doneMarker _⟩
    · intro ch hch
      simp at hch
      subst hch
      exact ⟨rfl, rfl⟩
    · intro _
      refine ⟨rfl, ?_⟩
      intro ch hch
      simp at hch
      subst hch
      rfl
    · intro hall
      exfalso
      have := hall ⟨0, ⟨"assistant", some s0, ""⟩⟩ (by simp)
      simp at this
  | achunk s0 =>
    simp only [renderItem, Option.some.injEq] at hri
    subst hri
    refine ⟨rfl, rfl, rfl, ?_, ?_, ?_, sseOfChunk_ne_doneMarker _⟩
    · intro ch hch
      simp at hch
      subst hch
      exact ⟨rfl, rfl⟩
    · rintro ⟨r0, ch, hch, hr0⟩
      exfalso
      simp at hch
      subst hch
      simp at hr0
    · intro _
      rfl
  | endMark => simp [renderItem] at hri

/-- The first chunk of the concrete example run. -/
def exChunk1 : ChatChunk :=
  { id := "chatcmpl-x"
    object := "chat.completion.chunk"
    created := 111
    model := "deepseek-base"
    choices := [⟨0, ⟨"assistant", some "r1", ""⟩⟩] }

/-- Witness for C8 at the first chunk of the concrete example run. -/
theorem c8_chunk_shape_witness :
    exChunk1 ∈ renderedChunks exMeta (run exStreamInput exSched).emitted ∧
    exChunk1.id = exMeta.chatId ∧ sseOfChunk exChunk1 ≠ doneMarker := by
  have hmem : exChunk1 ∈ renderedChunks exMeta (run exStreamInput exSched).emitted := by
    decide
  have h := c8_chunk_shape_amended exMeta exStreamInput exSched exChunk1 hmem
  exact ⟨hmem, h.1, h.2.2.2.2.2.2⟩

/-- C9: the claim is right and the code is wrong.  `messages.copy()` is a
shallow copy, so `last_message["content"] = fixed_content` rewrites the
dictionary the caller's list still holds: after either call the caller's
last user message no longer carries its original content but the spliced
prompt. -/
theorem c9_caller_message_mutated_in_place :
    (chatCompletionsWithoutStream nsParamsFix [⟨"user", "U"⟩]
        [.reasoning "r1", .content ""] false [.answer "a1"] false).finalMessages
      = [⟨"user", fixedContent "U" (combinedContentNoStream "r1")⟩] ∧
    (run mutStreamInput mutSched).callerMsgs
      = [⟨"user", fixedContent "U" (combinedContentStream "r1")⟩] ∧
    fixedContent "U" (combinedContentNoStream "r1") ≠ "U" ∧
    fixedContent "U" (combinedContentStream "r1") ≠ "U" := by
  refine ⟨rfl, rfl, ?_, ?_⟩ <;> decide

theorem roles_eq_no_system {l msgs : List Message}
    (h : l.map Message.role = (nonSystem msgs).map Message.role) :
    ∀ m ∈ l, m.role ≠ "system" := by
  intro m hm hcontra
  have hmr : m.role ∈ l.map Message.role := List.mem_map_of_mem _ hm
  rw [h] at hmr
  obtain ⟨m', hm', hrole⟩ := List.mem_map.mp hmr
  rw [nonSystem] at hm'
  have hf := List.of_mem_filter hm'
  simp at hf
  exact hf (hrole.trans hcontra)

/-- C10: in non-streaming mode, `prompt_tokens` is the token count of the
newline-joined contents of exactly the post-splice non-system message
list; the extracted system prompt is not part of that list, so it never
enters the count. -/
theorem c10_prompt_tokens_from_spliced_non_system (P : NSParams)
    (msgs : List Message) (dsE : List DSEvent) (dsR : Bool)
    (clE : List CEvent) (clR : Bool) (parts : List String) (sp : SpliceOk)
    (resp : ChatResponse)
    (h1 : dsReasoningParts dsE dsR = Except.ok parts)
    (h2 : spliceNoStream msgs (String.join parts) = Except.ok sp)
    (h3 : (chatCompletionsWithoutStream P msgs dsE dsR clE clR).result
      = Except.ok resp) :
    resp.usage.prompt_tokens
      = (P.enc (String.intercalate "\n"
          (sp.claudeMessages.map Message.content))).length ∧
    sp.claudeMessages.map Message.role = (nonSystem msgs).map Message.role ∧
    ∀ m ∈ sp.claudeMessages, m.role ≠ "system" := by
  have hroles : sp.claudeMessages.map Message.role
      = (nonSystem msgs).map Message.role := by
    rw [spliceNoStream] at h2
    rcases h5 : (nonSystem msgs).getLast? with _ | last
    · simp only [h5] at h2
      exact absurd h2 (by simp)
    · simp only [h5] at h2
      by_cases h6 : last.role = "user"
      · rw [if_pos h6] at h2
        simp only [Except.ok.injEq] at h2
        rw [← h2]
        exact setLastContent_roles _ _
      · rw [if_neg h6] at h2
        simp only [Except.ok.injEq] at h2
        rw [← h2]
  refine ⟨?_, hroles, roles_eq_no_system hroles⟩
  rw [chatCompletionsWithoutStream] at h3
  simp only [h1, h2] at h3
  rcases h4 : clAnswerParts clE clR with e | answers
  · simp only [h4] at h3
    exact absurd h3 (by simp)
  · simp only [h4, Except.ok.injEq] at h3
    rw [← h3]

/-- Witness for C10 at the concrete example request. -/
theorem c10_prompt_tokens_witness :
    ∃ parts sp resp,
      dsReasoningParts exDsEvents false = Except.ok parts ∧
      spliceNoStream exMessages (String.join parts) = Except.ok sp ∧
      (chatCompletionsWithoutStream nsParamsFix exMessages exDsEvents false
          exClEvents false).result = Except.ok resp ∧
      resp.usage.prompt_tokens
        = (nsParamsFix.enc (String.intercalate "\n"
            (sp.claudeMessages.map Message.content))).length :=
  ⟨_, _, _, rfl, rfl, rfl,
    (c10_prompt_tokens_from_spliced_non_system nsParamsFix exMessages
      exDsEvents false exClEvents false _ _ _ rfl rfl rfl).1⟩

end DeepClaude
